import Mathlib

/-!
Shallow embedding of the grouping + aggregation core of the
product-quality-analyse repository (quality_test.py, defect_graph.py,
grouped_defect_pareto_chart.py).

Modelling conventions:
- a spreadsheet cell value is `Value` (`None`, a string, or an integer);
- a Python dict used as a data record is an association list `Record`;
- Python float division in `quality_ratio` is modelled by exact division
  in `ℚ`;
- Python `str.strip` is modelled character-wise by `pyStrip`, Python
  `str.startswith` by `pyStartsWith`, and the Python substring test
  `kw in s` by `strContains`;
- a Python function that can raise (indexing a too-short row) is modelled
  in `Except String`, the error being the raised exception.
-/

/-- A spreadsheet cell value as the Python scripts see it: `None`, a
string, or an integer (numeric product codes). -/
inductive Value where
  | vnone : Value
  | vstr (s : String) : Value
  | vint (n : Int) : Value
deriving DecidableEq

/-- Python `str(v)`. -/
def Value.pyStr : Value → String
  | Value.vnone => "None"
  | Value.vstr s => s
  | Value.vint n => toString n

/-- Python truthiness of a cell value, used by `if cell_value:`. -/
def Value.truthy : Value → Bool
  | Value.vnone => false
  | Value.vstr s => s != ""
  | Value.vint n => n != 0

/-- Python `str.strip()`: drop leading and trailing whitespace
characters. -/
def pyStrip (s : String) : String :=
  String.mk (((s.data.dropWhile Char.isWhitespace).reverse.dropWhile
    Char.isWhitespace).reverse)

/-- Python `str.startswith(pre)`, character-wise. -/
def pyStartsWith (s pre : String) : Bool :=
  List.isPrefixOf pre.data s.data

/-- The Python substring test `pat in s`. -/
def strContains (s pat : String) : Bool :=
  List.any (List.range (s.data.length + 1))
    (fun i => List.isPrefixOf pat.data (List.drop i s.data))

/-- A data record: a Python dict from column names to cell values,
modelled as an insertion-ordered association list with unique keys. -/
abbrev Record := List (String × Value)

/-- Python `item.get(key)`: the stored value, `None` when the key is
absent. -/
def getField : Record → String → Value
  | [], _ => Value.vnone
  | (k, v) :: rest, key => if k = key then v else getField rest key

/-- Python `item[key] = v` on a dict: overwrite the stored value, or
append a new key. -/
def setField : Record → String → Value → Record
  | [], key, v => [(key, v)]
  | (k, w) :: rest, key, v =>
      if k = key then (key, v) :: rest else (k, w) :: setField rest key v

/-- One iteration of `preprocess_data` (quality_test.py lines 51-62):
when the final-quality field `最终品质` is null or blank it is filled from
the stage-2 field `工序2品质` — `好` when stage 2 equals `好`, else `坏`;
otherwise the record is untouched. -/
def fillRecord (item : Record) : Record :=
  let final_quality := getField item "最终品质"
  if final_quality = Value.vnone ∨ final_quality = Value.vstr "" then
    if getField item "工序2品质" = Value.vstr "好" then
      setField item "最终品质" (Value.vstr "好")
    else
      setField item "最终品质" (Value.vstr "坏")
  else item

/-- `preprocess_data` (quality_test.py): apply the null fill to every
record of the data set. -/
def preprocess_data : List Record → List Record
  | [] => []
  | item :: rest => fillRecord item :: preprocess_data rest

/-- The loop body of `quality_ratio` (quality_test.py lines 79-92), the
state being the pair `(total, count)`. -/
def qualityStep (category : Value) (process_column : String)
    (values_to_count : List Value) (consider_empty : Bool)
    (acc : Nat × Nat) (item : Record) : Nat × Nat :=
  if getField item "种类" = category then
    let value := getField item process_column
    if value = Value.vnone ∨ value = Value.vstr "" then acc
    else
      (acc.1 + 1,
        if value ∈ values_to_count then acc.2 + 1
        else if consider_empty ∧ (value = Value.vnone ∨ value = Value.vstr "")
          then acc.2
        else acc.2)
  else acc

/-- `quality_ratio` (quality_test.py lines 66-94): the share of the
counted values among the non-blank values of `process_column` over the
records of `category`; `0` when no record contributes. -/
def quality_ratio (data : List Record) (category : Value)
    (process_column : String) (values_to_count : List Value)
    (consider_empty : Bool) : ℚ :=
  let tc := List.foldl
    (qualityStep category process_column values_to_count consider_empty)
    (0, 0) data
  if 0 < tc.1 then (tc.2 : ℚ) / (tc.1 : ℚ) else 0

/-- A record that enters the denominator of `quality_ratio`: it has the
target category and a value that is neither null nor the empty string. -/
def countsForTotal (category : Value) (process_column : String)
    (item : Record) : Bool :=
  decide (getField item "种类" = category ∧
    ¬(getField item process_column = Value.vnone ∨
      getField item process_column = Value.vstr ""))

/-- A denominator record whose value is a member of the counted set. -/
def countsForNumer (category : Value) (process_column : String)
    (values_to_count : List Value) (item : Record) : Bool :=
  decide ((getField item "种类" = category ∧
    ¬(getField item process_column = Value.vnone ∨
      getField item process_column = Value.vstr "")) ∧
    getField item process_column ∈ values_to_count)

/-- A category code is a Python string, modelled as its character list so
that the Python slice `code[:n]` is `List.take n`. -/
abbrev Code := List Char

/-- `min(len(code) for code in product_codes) if product_codes else 0`
(defect_graph.py line 78). -/
def min_code_length (product_codes : List Code) : Nat :=
  match product_codes with
  | [] => 0
  | c :: cs => List.foldl (fun m code => Nat.min m code.length) c.length cs

/-- The dict update of `group_product_codes`: append `code` to the member
list stored under `base_code`, creating the group when absent. -/
def addToGroup : List (Code × List Code) → Code → Code →
    List (Code × List Code)
  | [], base_code, code => [(base_code, [code])]
  | (k, members) :: rest, base_code, code =>
      if k = base_code then (k, members ++ [code]) :: rest
      else (k, members) :: addToGroup rest base_code code

/-- `group_product_codes` (defect_graph.py lines 69-91 and
grouped_defect_pareto_chart.py lines 77-99): group every code under its
first `min_length` characters. -/
def group_product_codes (product_codes : List Code) :
    List (Code × List Code) :=
  let min_length := min_code_length product_codes
  List.foldl
    (fun groups code => addToGroup groups (List.take min_length code) code)
    [] product_codes

/-- All member codes of a grouping, in order. -/
def joinMembers (groups : List (Code × List Code)) : List Code :=
  List.flatten (List.map Prod.snd groups)

/-- The per-column collection loop of `analyze_defect_data`
(defect_graph.py lines 108-113): every record value for `column` that is
not `None` and not blank after stripping, in its stripped string form. -/
def collectDefects : List Record → String → List String
  | [], _ => []
  | item :: rest, column =>
      let defect := getField item column
      if defect ≠ Value.vnone ∧ pyStrip defect.pyStr ≠ "" then
        pyStrip defect.pyStr :: collectDefects rest column
      else collectDefects rest column

/-- `analyze_defect_data` (defect_graph.py lines 94-119 and
grouped_defect_pareto_chart.py lines 102-127): for each of the three
process columns, the collected defect strings; the Counter built from
them is `List.count` on that list. -/
def analyze_defect_data (graph_data : List Record) :
    List (String × List String) :=
  List.map (fun column => (column, collectDefects graph_data column))
    ["这个缺陷", "哪个缺陷", "就是这个缺陷"]

/-- `is_valid_code` (defect_graph.py lines 30-40): a code is valid when it
is not `None` and its string form does not start with `#`. -/
def is_valid_code (code : Option String) : Bool :=
  match code with
  | Option.none => false
  | Option.some code_str =>
      if pyStartsWith code_str "#" then false else true

/-- The keep decision of `load_graph_data` in defect_graph.py
(lines 51-54) for the key cell `row[0]`: stringify unless `None`, then
`is_valid_code`. -/
def keepRowDefect (key : Value) : Bool :=
  is_valid_code (match key with
    | Value.vnone => Option.none
    | v => Option.some v.pyStr)

/-- The keep decision of `load_graph_data` in
grouped_defect_pareto_chart.py (lines 53-62): skip `None` key cells, then
`is_valid_code` on the stringified key. -/
def keepRowPareto (key : Value) : Bool :=
  match key with
  | Value.vnone => false
  | v => is_valid_code (Option.some v.pyStr)

/-- The keep decision of `load_data` in quality_test.py (lines 35-38):
only rows whose key cell `row[0]` is `None` are skipped; there is no
error-marker check in this variant. -/
def keepRowQuality (key : Value) : Bool :=
  match key with
  | Value.vnone => false
  | _ => true

/-- Python `row[i]`: the cell when the row is long enough, otherwise the
raised `IndexError`. -/
def pyIndex (row : List Value) (i : Nat) : Except String Value :=
  match row[i]? with
  | Option.none => Except.error "IndexError"
  | Option.some v => Except.ok v

/-- The scanning loop of `find_header_row` in quality_test.py
(lines 17-24): every cell of every row is inspected; truthy cells whose
string form contains the keyword mark the header row. -/
def findHeaderRowQtGo (header_keyword : String) :
    List (List Value) → Nat → Nat
  | [], _ => 1
  | row :: rest, row_idx =>
      if List.any row
          (fun cell => cell.truthy && strContains cell.pyStr header_keyword)
        then row_idx
      else findHeaderRowQtGo header_keyword rest (row_idx + 1)

/-- `find_header_row` (quality_test.py lines 17-24). -/
def find_header_row_qt (rows : List (List Value))
    (header_keyword : String) : Nat :=
  findHeaderRowQtGo header_keyword rows 1

/-- The cell test of `find_header_row` in defect_graph.py and
grouped_defect_pareto_chart.py: the inspected cell is not `None` and its
string form contains the keyword. -/
def dgCellHit (header_keyword : String) (cell : Value) : Bool :=
  match cell with
  | Value.vnone => false
  | v => strContains v.pyStr header_keyword

/-- The scanning loop of `find_header_row` in defect_graph.py
(lines 20-28): `row[0]` is accessed unconditionally, so a zero-cell row
raises `IndexError`; a non-`None` cell whose string form contains the
keyword marks the header row. -/
def findHeaderRowDgGo (header_keyword : String) :
    List (List Value) → Nat → Except String Nat
  | [], _ => Except.ok 1
  | row :: rest, row_idx =>
      match pyIndex row 0 with
      | Except.error e => Except.error e
      | Except.ok cell =>
          if dgCellHit header_keyword cell then Except.ok row_idx
          else findHeaderRowDgGo header_keyword rest (row_idx + 1)

/-- `find_header_row` (defect_graph.py lines 20-28). -/
def find_header_row_dg (rows : List (List Value))
    (header_keyword : String) : Except String Nat :=
  findHeaderRowDgGo header_keyword rows 1

/-- The scanning loop of `find_header_row` in
grouped_defect_pareto_chart.py (lines 19-27): the third cell is inspected
only after checking `len(row) > 2`, so short rows are skipped safely. -/
def findHeaderRowParetoGo (header_keyword : String) :
    List (List Value) → Nat → Except String Nat
  | [], _ => Except.ok 1
  | row :: rest, row_idx =>
      if 2 < row.length then
        match pyIndex row 2 with
        | Except.error e => Except.error e
        | Except.ok cell =>
            if dgCellHit header_keyword cell then Except.ok row_idx
            else findHeaderRowParetoGo header_keyword rest (row_idx + 1)
      else findHeaderRowParetoGo header_keyword rest (row_idx + 1)

/-- `find_header_row` (grouped_defect_pareto_chart.py lines 19-27). -/
def find_header_row_pareto (rows : List (List Value))
    (header_keyword : String) : Except String Nat :=
  findHeaderRowParetoGo header_keyword rows 1

lemma quality_fold (category : Value) (process_column : String)
    (values_to_count : List Value) (consider_empty : Bool)
    (data : List Record) :
    ∀ t c : Nat,
      List.foldl
        (qualityStep category process_column values_to_count consider_empty)
        (t, c) data =
      (t + List.countP (countsForTotal category process_column) data,
       c + List.countP (countsForNumer category process_column values_to_count)
            data) := by
  induction data with
  | nil => intro t c; simp
  | cons item rest ih =>
      intro t c
      rw [List.foldl_cons]
      by_cases hcat : getField item "种类" = category
      · by_cases hblank : getField item process_column = Value.vnone ∨
            getField item process_column = Value.vstr ""
        · have hstep :
              qualityStep category process_column values_to_count
                consider_empty (t, c) item = (t, c) := by
            simp [qualityStep, hcat, hblank]
          rw [hstep, ih]
          have h1 : countsForTotal category process_column item = false := by
            simp [countsForTotal, hblank]
          have h2 : countsForNumer category process_column values_to_count
              item = false := by
            simp [countsForNumer, hblank]
          simp [List.countP_cons, h1, h2]
        · have h1 : countsForTotal category process_column item = true := by
            simp [countsForTotal, hcat, hblank]
          by_cases hmem : getField item process_column ∈ values_to_count
          · have hstep :
                qualityStep category process_column values_to_count
                  consider_empty (t, c) item = (t + 1, c + 1) := by
              simp [qualityStep, hcat, hblank, hmem]
            have h2 : countsForNumer category process_column values_to_count
                item = true := by
              simp [countsForNumer, hcat, hblank, hmem]
            rw [hstep, ih]
            simp [List.countP_cons, h1, h2, Prod.mk.injEq]
            all_goals omega
          · have hstep :
                qualityStep category process_column values_to_count
                  consider_empty (t, c) item = (t + 1, c) := by
              simp [qualityStep, hcat, hblank, hmem]
            have h2 : countsForNumer category process_column values_to_count
                item = false := by
              simp [countsForNumer, hmem]
            rw [hstep, ih]
            simp [List.countP_cons, h1, h2, Prod.mk.injEq]
            all_goals omega
      · have hstep :
            qualityStep category process_column values_to_count
              consider_empty (t, c) item = (t, c) := by
          simp [qualityStep, hcat]
        have h1 : countsForTotal category process_column item = false := by
          simp [countsForTotal, hcat]
        have h2 : countsForNumer category process_column values_to_count
            item = false := by
          simp [countsForNumer, hcat]
        rw [hstep, ih]
        simp [List.countP_cons, h1, h2]

lemma quality_ratio_eq (data : List Record) (category : Value)
    (process_column : String) (values_to_count : List Value)
    (consider_empty : Bool) :
    quality_ratio data category process_column values_to_count consider_empty
      = (List.countP (countsForNumer category process_column values_to_count)
          data : ℚ) /
        (List.countP (countsForTotal category process_column) data : ℚ) := by
  unfold quality_ratio
  rw [quality_fold]
  simp only [Nat.zero_add]
  by_cases h : 0 < List.countP (countsForTotal category process_column) data
  · simp [h]
  · have h0 : List.countP (countsForTotal category process_column) data = 0 := by
      omega
    have hle : List.countP
        (countsForNumer category process_column values_to_count) data ≤
        List.countP (countsForTotal category process_column) data := by
      apply List.countP_mono_left
      intro x _ hx
      simp only [countsForNumer, decide_eq_true_eq] at hx
      simp only [countsForTotal, decide_eq_true_eq]
      exact hx.1
    have h1 : List.countP
        (countsForNumer category process_column values_to_count) data = 0 := by
      omega
    simp [h0, h1]

/-- The concrete record set of the C2 example: four records of category
`X` whose field values are `good`, `fine`, `None`, `bad`. -/
def exQualityData : List Record :=
  [[("种类", Value.vstr "X"), ("最终品质", Value.vstr "good")],
   [("种类", Value.vstr "X"), ("最终品质", Value.vstr "fine")],
   [("种类", Value.vstr "X"), ("最终品质", Value.vnone)],
   [("种类", Value.vstr "X"), ("最终品质", Value.vstr "bad")]]

/-- C2: for every record set, target category, process-field name and
counted-values set, `quality_ratio` returns n/d where d counts the
matching-category records whose field value is neither null nor blank and
n counts those whose value lies in the counted set; on category `X` with
field values `good`, `fine`, `None`, `bad` and counted set
`{good, fine}` it returns 2/3, the null value being excluded from the
denominator. -/
theorem quality_ratio_counts_spec :
    (∀ (data : List Record) (category : Value) (process_column : String)
        (values_to_count : List Value) (consider_empty : Bool),
        quality_ratio data category process_column values_to_count
            consider_empty =
          (List.countP
              (countsForNumer category process_column values_to_count)
              data : ℚ) /
            (List.countP (countsForTotal category process_column) data : ℚ)) ∧
    quality_ratio exQualityData (Value.vstr "X") "最终品质"
        [Value.vstr "good", Value.vstr "fine"] false = 2 / 3 := by
  constructor
  · exact fun data category col vals ce => quality_ratio_eq data category col vals ce
  · rw [quality_ratio_eq]
    have h1 : List.countP
        (countsForNumer (Value.vstr "X") "最终品质"
          [Value.vstr "good", Value.vstr "fine"]) exQualityData = 2 := by
      decide
    have h2 : List.countP (countsForTotal (Value.vstr "X") "最终品质")
        exQualityData = 3 := by decide
    rw [h1, h2]
    norm_num

/-- C3: when no matching-category record has a non-blank value for the
field (the denominator is 0), `quality_ratio` returns exactly 0 — division
by zero never propagates. -/
theorem quality_ratio_zero_denominator (data : List Record)
    (category : Value) (process_column : String)
    (values_to_count : List Value) (consider_empty : Bool)
    (h : List.countP (countsForTotal category process_column) data = 0) :
    quality_ratio data category process_column values_to_count
      consider_empty = 0 := by
  rw [quality_ratio_eq, h]
  simp

/-- Concrete record set with no countable denominator for category `X`:
both matching records have a blank field value. -/
def exNoDenomData : List Record :=
  [[("种类", Value.vstr "X"), ("最终品质", Value.vnone)],
   [("种类", Value.vstr "X"), ("最终品质", Value.vstr "")],
   [("种类", Value.vstr "Y"), ("最终品质", Value.vstr "good")]]

/-- Witness for C3 at a concrete record set. -/
theorem quality_ratio_zero_denominator_witness :
    List.countP (countsForTotal (Value.vstr "X") "最终品质")
      exNoDenomData = 0 ∧
    quality_ratio exNoDenomData (Value.vstr "X") "最终品质"
      [Value.vstr "good"] false = 0 :=
  ⟨by decide,
   quality_ratio_zero_denominator exNoDenomData (Value.vstr "X") "最终品质"
     [Value.vstr "good"] false (by decide)⟩

/-- C10: `quality_ratio` returns the same value with
`consider_empty = True` as with `consider_empty = False`: the
consider-empty branch can only be reached after null and empty values
have already been skipped, so the parameter has no effect on the
result. -/
theorem quality_ratio_consider_empty_no_effect :
    ∀ (data : List Record) (category : Value) (process_column : String)
      (values_to_count : List Value),
      quality_ratio data category process_column values_to_count true =
        quality_ratio data category process_column values_to_count false := by
  intro data category col vals
  rw [quality_ratio_eq, quality_ratio_eq]

lemma getField_setField_self (item : Record) (key : String) (v : Value) :
    getField (setField item key v) key = v := by
  induction item with
  | nil => simp [setField, getField]
  | cons kv rest ih =>
      obtain ⟨k, w⟩ := kv
      by_cases hk : k = key
      · simp [setField, hk, getField]
      · simp [setField, hk, getField, ih]

lemma getField_setField_ne (item : Record) (key : String) (v : Value)
    (key2 : String) (hne : key2 ≠ key) :
    getField (setField item key v) key2 = getField item key2 := by
  induction item with
  | nil => simp [setField, getField, Ne.symm hne]
  | cons kv rest ih =>
      obtain ⟨k, w⟩ := kv
      by_cases hk : k = key
      · subst hk
        simp [setField, getField, Ne.symm hne]
      · simp [setField, hk, getField, ih]

lemma preprocess_eq_map (data : List Record) :
    preprocess_data data = List.map fillRecord data := by
  induction data with
  | nil => rfl
  | cons item rest ih => simp [preprocess_data, ih]

lemma fillRecord_final (item : Record) :
    getField (fillRecord item) "最终品质" =
      (if getField item "最终品质" = Value.vnone ∨
          getField item "最终品质" = Value.vstr "" then
        (if getField item "工序2品质" = Value.vstr "好" then Value.vstr "好"
         else Value.vstr "坏")
       else getField item "最终品质") := by
  by_cases hb : getField item "最终品质" = Value.vnone ∨
      getField item "最终品质" = Value.vstr ""
  · by_cases h2 : getField item "工序2品质" = Value.vstr "好"
    · simp [fillRecord, hb, h2, getField_setField_self]
    · simp [fillRecord, hb, h2, getField_setField_self]
  · simp [fillRecord, hb]

lemma fillRecord_not_blank (item : Record)
    (h : ¬(getField item "最终品质" = Value.vnone ∨
        getField item "最终品质" = Value.vstr "")) :
    fillRecord item = item := by
  simp [fillRecord, h]

lemma fillRecord_fillRecord (item : Record) :
    fillRecord (fillRecord item) = fillRecord item := by
  by_cases hb : getField item "最终品质" = Value.vnone ∨
      getField item "最终品质" = Value.vstr ""
  · have hfinal := fillRecord_final item
    rw [if_pos hb] at hfinal
    apply fillRecord_not_blank
    rw [hfinal]
    by_cases h2 : getField item "工序2品质" = Value.vstr "好" <;>
      simp [h2]
  · rw [fillRecord_not_blank item hb, fillRecord_not_blank item hb]

/-- C4: for every record whose terminal-quality field `最终品质` is null
or blank, the null fill sets it to the good sentinel `好` exactly when the
stage-2 field `工序2品质` equals `好`, and to the bad sentinel `坏`
otherwise, leaving every other field unchanged; a record whose
terminal-quality field is non-null and non-blank is left unchanged, and
`preprocess_data` applies this fill record by record. -/
theorem preprocess_null_fill_spec (data : List Record) (item : Record) :
    preprocess_data data = List.map fillRecord data ∧
    getField (fillRecord item) "最终品质" =
      (if getField item "最终品质" = Value.vnone ∨
          getField item "最终品质" = Value.vstr "" then
        (if getField item "工序2品质" = Value.vstr "好" then Value.vstr "好"
         else Value.vstr "坏")
       else getField item "最终品质") ∧
    (∀ key : String, key ≠ "最终品质" →
        getField (fillRecord item) key = getField item key) ∧
    (¬(getField item "最终品质" = Value.vnone ∨
        getField item "最终品质" = Value.vstr "") →
      fillRecord item = item) := by
  refine ⟨preprocess_eq_map data, fillRecord_final item, ?_, fillRecord_not_blank item⟩
  intro key hkey
  by_cases hb : getField item "最终品质" = Value.vnone ∨
      getField item "最终品质" = Value.vstr ""
  · by_cases h2 : getField item "工序2品质" = Value.vstr "好" <;>
      simp [fillRecord, hb, h2, getField_setField_ne _ _ _ _ hkey]
  · rw [fillRecord_not_blank item hb]

/-- Record of the C4 example with stage-2 quality `好` and a null
terminal quality. -/
def exFillItemA : Record :=
  [("种类", Value.vstr "X"), ("工序2品质", Value.vstr "好"),
   ("最终品质", Value.vnone)]

/-- Record whose terminal quality is already non-blank. -/
def exFillItemB : Record :=
  [("种类", Value.vstr "X"), ("工序2品质", Value.vstr "坏"),
   ("最终品质", Value.vstr "良")]

/-- Witness for C4 at concrete records. -/
theorem preprocess_null_fill_spec_witness :
    ("种类" ≠ "最终品质") ∧
    getField (fillRecord exFillItemA) "种类" = getField exFillItemA "种类" ∧
    (¬(getField exFillItemB "最终品质" = Value.vnone ∨
        getField exFillItemB "最终品质" = Value.vstr "")) ∧
    fillRecord exFillItemB = exFillItemB :=
  ⟨by decide,
   (preprocess_null_fill_spec [] exFillItemA).2.2.1 "种类" (by decide),
   by decide,
   (preprocess_null_fill_spec [] exFillItemB).2.2.2 (by decide)⟩

/-- C5: the null-fill preprocessing is deterministic and idempotent:
applying `preprocess_data` twice yields the same record list as applying
it once, so re-running it on already-filled records is a no-op. -/
theorem preprocess_data_idempotent :
    ∀ data : List Record,
      preprocess_data (preprocess_data data) = preprocess_data data := by
  intro data
  induction data with
  | nil => rfl
  | cons item rest ih =>
      simp [preprocess_data, ih, fillRecord_fillRecord]

lemma foldl_min_le_init (l : List Code) :
    ∀ a : Nat, List.foldl (fun m code => Nat.min m code.length) a l ≤ a := by
  induction l with
  | nil => intro a; simp
  | cons c cs ih =>
      intro a
      rw [List.foldl_cons]
      exact le_trans (ih _) (Nat.min_le_left _ _)

lemma foldl_min_le_mem (l : List Code) :
    ∀ a : Nat, ∀ c ∈ l,
      List.foldl (fun m code => Nat.min m code.length) a l ≤ c.length := by
  induction l with
  | nil => intro a c hc; cases hc
  | cons d ds ih =>
      intro a c hc
      rcases List.mem_cons.mp hc with h | h
      · subst h
        rw [List.foldl_cons]
        exact le_trans (foldl_min_le_init ds _) (Nat.min_le_right _ _)
      · exact ih _ c h

lemma min_code_length_le (product_codes : List Code) (c : Code)
    (hc : c ∈ product_codes) : min_code_length product_codes ≤ c.length := by
  match product_codes with
  | [] => cases hc
  | d :: ds =>
      rcases List.mem_cons.mp hc with h | h
      · subst h
        exact foldl_min_le_init ds _
      · exact foldl_min_le_mem ds _ c h

lemma joinMembers_addToGroup (gs : List (Code × List Code)) (k c : Code) :
    List.Perm (joinMembers (addToGroup gs k c)) (c :: joinMembers gs) := by
  unfold joinMembers
  induction gs with
  | nil => simp [addToGroup]
  | cons g rest ih =>
      obtain ⟨k2, ms⟩ := g
      by_cases hk : k2 = k
      · simp only [addToGroup, if_pos hk, List.map_cons, List.flatten_cons]
        exact (List.perm_append_singleton c ms).append_right _
      · simp only [addToGroup, if_neg hk, List.map_cons, List.flatten_cons]
        exact (List.Perm.append_left ms ih).trans List.perm_middle

lemma addToGroup_forall (Q : Code × List Code → Prop) :
    ∀ (gs : List (Code × List Code)) (k c : Code),
      (∀ g ∈ gs, Q g) → Q (k, [c]) →
      (∀ ms : List Code, Q (k, ms) → Q (k, ms ++ [c])) →
      ∀ g ∈ addToGroup gs k c, Q g := by
  intro gs k c
  induction gs with
  | nil =>
      intro _ h2 _ g hg
      rw [List.mem_singleton.mp hg]
      exact h2
  | cons g0 rest ih =>
      obtain ⟨k2, ms⟩ := g0
      intro h1 h2 h3 g hg
      by_cases hk : k2 = k
      · rw [show addToGroup ((k2, ms) :: rest) k c =
            (k2, ms ++ [c]) :: rest from by simp [addToGroup, hk]] at hg
        rcases List.mem_cons.mp hg with h | h
        · subst hk
          rw [h]
          exact h3 ms (h1 (k2, ms) (List.mem_cons_self _ _))
        · exact h1 g (List.mem_cons_of_mem _ h)
      · rw [show addToGroup ((k2, ms) :: rest) k c =
            (k2, ms) :: addToGroup rest k c from by simp [addToGroup, hk]] at hg
        rcases List.mem_cons.mp hg with h | h
        · rw [h]
          exact h1 _ (List.mem_cons_self _ _)
        · exact ih (fun g2 hg2 => h1 g2 (List.mem_cons_of_mem _ hg2)) h2 h3 g h

lemma group_fold (minLen : Nat) (codes : List Code) :
    ∀ gs : List (Code × List Code),
      (∀ g ∈ gs, g.2 ≠ [] ∧ ∀ m ∈ g.2, g.1 = List.take minLen m) →
      (∀ g ∈ List.foldl
          (fun groups code => addToGroup groups (List.take minLen code) code)
          gs codes,
        g.2 ≠ [] ∧ ∀ m ∈ g.2, g.1 = List.take minLen m) ∧
      List.Perm
        (joinMembers (List.foldl
          (fun groups code => addToGroup groups (List.take minLen code) code)
          gs codes))
        (joinMembers gs ++ codes) := by
  induction codes with
  | nil =>
      intro gs hgs
      exact ⟨hgs, by simp⟩
  | cons c cs ih =>
      intro gs hgs
      rw [List.foldl_cons]
      have hgs2 : ∀ g ∈ addToGroup gs (List.take minLen c) c,
          g.2 ≠ [] ∧ ∀ m ∈ g.2, g.1 = List.take minLen m := by
        apply addToGroup_forall _ gs _ c hgs
        · refine ⟨by simp, ?_⟩
          intro m hm
          rw [List.mem_singleton.mp hm]
        · intro ms hms
          refine ⟨by simp, ?_⟩
          intro m hm
          rcases List.mem_append.mp hm with h | h
          · exact hms.2 m h
          · rw [List.mem_singleton.mp h]
      obtain ⟨ha, hb⟩ := ih (addToGroup gs (List.take minLen c) c) hgs2
      refine ⟨ha, ?_⟩
      refine hb.trans ?_
      have h2 := (joinMembers_addToGroup gs (List.take minLen c) c).append_right cs
      refine h2.trans ?_
      exact List.perm_middle.symm

lemma countP_eq_one_of_nodup_mem {α : Type} [DecidableEq α] (l : List α)
    (a : α) (hnd : l.Nodup) (ha : a ∈ l) :
    List.countP (fun m => decide (m = a)) l = 1 := by
  induction l with
  | nil => cases ha
  | cons x xs ih =>
      rw [List.countP_cons]
      by_cases hxa : x = a
      · subst hxa
        have hnin : x ∉ xs := (List.nodup_cons.mp hnd).1
        have h0 : List.countP (fun m => decide (m = x)) xs = 0 := by
          rw [List.countP_eq_zero]
          intro b hb
          simp only [decide_eq_true_eq]
          intro hbx
          exact hnin (hbx ▸ hb)
        simp [h0]
      · have hmem : a ∈ xs := by
          rcases List.mem_cons.mp ha with h | h
          · exact absurd h.symm hxa
          · exact h
        rw [ih (List.nodup_cons.mp hnd).2 hmem]
        simp [hxa]

lemma mem_joinMembers (gs : List (Code × List Code))
    (g : Code × List Code) (hg : g ∈ gs) (m : Code) (hm : m ∈ g.2) :
    m ∈ joinMembers gs := by
  unfold joinMembers
  rw [List.mem_flatten]
  exact ⟨g.2, List.mem_map_of_mem Prod.snd hg, hm⟩

/-- C1: on a non-empty set of distinct category codes,
`group_product_codes` partitions the input exactly: every group key has
the minimum code length, every group key is a literal prefix of each of
its member codes, the member lists together are a permutation of the
input, and every input code appears in exactly one member list. -/
theorem group_product_codes_partition (product_codes : List Code)
    (_hne : product_codes ≠ []) (hnd : product_codes.Nodup) :
    (∀ g ∈ group_product_codes product_codes,
        g.1.length = min_code_length product_codes) ∧
    (∀ g ∈ group_product_codes product_codes, ∀ m ∈ g.2, g.1 <+: m) ∧
    List.Perm (joinMembers (group_product_codes product_codes))
      product_codes ∧
    (∀ code ∈ product_codes,
        List.countP (fun m => decide (m = code))
          (joinMembers (group_product_codes product_codes)) = 1) := by
  have base := group_fold (min_code_length product_codes) product_codes []
    (by intro g hg; cases hg)
  have hG : group_product_codes product_codes =
      List.foldl (fun groups code =>
        addToGroup groups (List.take (min_code_length product_codes) code)
          code) [] product_codes := rfl
  rw [← hG] at base
  obtain ⟨hinv, hperm⟩ := base
  have hperm2 : List.Perm (joinMembers (group_product_codes product_codes))
      product_codes := by
    simpa [joinMembers] using hperm
  refine ⟨?_, ?_, hperm2, ?_⟩
  · intro g hg
    obtain ⟨hmem, htake⟩ := hinv g hg
    obtain ⟨m, hm⟩ : ∃ m, m ∈ g.2 := List.exists_mem_of_ne_nil _ hmem
    have hkey := htake m hm
    have hmc : m ∈ product_codes :=
      hperm2.mem_iff.mp (mem_joinMembers _ g hg m hm)
    have hlen := min_code_length_le product_codes m hmc
    rw [hkey, List.length_take]
    exact min_eq_left hlen
  · intro g hg m hm
    have hkey := (hinv g hg).2 m hm
    rw [hkey]
    exact List.take_prefix _ _
  · intro code hc
    rw [hperm2.countP_eq]
    exact countP_eq_one_of_nodup_mem product_codes code hnd hc

/-- The code set of the worked example: `AB`, `AB1`, `AB2`, `CD3`. -/
def exCodes : List Code :=
  [String.toList "AB", String.toList "AB1", String.toList "AB2",
   String.toList "CD3"]

/-- Witness for C1 at the concrete code set of the worked example. -/
theorem group_product_codes_partition_witness :
    (exCodes ≠ []) ∧ exCodes.Nodup ∧
    ((∀ g ∈ group_product_codes exCodes,
        g.1.length = min_code_length exCodes) ∧
     (∀ g ∈ group_product_codes exCodes, ∀ m ∈ g.2, g.1 <+: m) ∧
     List.Perm (joinMembers (group_product_codes exCodes)) exCodes ∧
     (∀ code ∈ exCodes,
        List.countP (fun m => decide (m = code))
          (joinMembers (group_product_codes exCodes)) = 1)) :=
  ⟨by decide, by decide,
   group_product_codes_partition exCodes (by decide) (by decide)⟩

lemma count_collectDefects (data : List Record) (column : String)
    (s : String) (hs : s ≠ "") :
    List.countP (fun d => decide (d = s)) (collectDefects data column) =
      List.countP (fun item =>
        decide (getField item column ≠ Value.vnone ∧
          pyStrip (getField item column).pyStr = s)) data := by
  induction data with
  | nil => simp [collectDefects]
  | cons item rest ih =>
      by_cases h : getField item column ≠ Value.vnone ∧
          pyStrip (getField item column).pyStr ≠ ""
      · rw [show collectDefects (item :: rest) column =
            pyStrip (getField item column).pyStr :: collectDefects rest column
            from by simp [collectDefects, h]]
        rw [List.countP_cons, List.countP_cons, ih]
        by_cases h2 : pyStrip (getField item column).pyStr = s
        · simp [h2, h.1]
        · simp [h2]
      · rw [show collectDefects (item :: rest) column =
            collectDefects rest column from by simp [collectDefects, h]]
        have hp : ¬(getField item column ≠ Value.vnone ∧
            pyStrip (getField item column).pyStr = s) := by
          intro hc
          exact h ⟨hc.1, by rw [hc.2]; exact hs⟩
        rw [List.countP_cons, ih]
        simp [hp]

/-- The column values of the C6 example: `scratch`, `scratch`, `crack`,
`None`, a blank string. -/
def exDefects : List Record :=
  [[("这个缺陷", Value.vstr "scratch")],
   [("这个缺陷", Value.vstr "scratch")],
   [("这个缺陷", Value.vstr "crack")],
   [("这个缺陷", Value.vnone)],
   [("这个缺陷", Value.vstr "  ")]]

/-- C6: for every record set and process column, `analyze_defect_data`
builds the frequency table over the whitespace-trimmed string values of
that column, counting only values that are non-null and non-blank after
trimming: the multiplicity of a non-empty label equals the number of
records whose trimmed value is that label; on the values `scratch`,
`scratch`, `crack`, `None`, blank, the table is scratch = 2, crack = 1
with total 3. -/
theorem analyze_defect_data_counts :
    (∀ (data : List Record) (column : String) (s : String), s ≠ "" →
        List.countP (fun d => decide (d = s)) (collectDefects data column) =
          List.countP (fun item =>
            decide (getField item column ≠ Value.vnone ∧
              pyStrip (getField item column).pyStr = s)) data) ∧
    analyze_defect_data exDefects =
      [("这个缺陷", ["scratch", "scratch", "crack"]),
       ("哪个缺陷", []), ("就是这个缺陷", [])] ∧
    List.countP (fun d => decide (d = "scratch"))
      (collectDefects exDefects "这个缺陷") = 2 ∧
    List.countP (fun d => decide (d = "crack"))
      (collectDefects exDefects "这个缺陷") = 1 ∧
    (collectDefects exDefects "这个缺陷").length = 3 :=
  ⟨count_collectDefects, by decide, by decide, by decide, by decide⟩

/-- Witness for C6 at the concrete record set of the example. -/
theorem analyze_defect_data_counts_witness :
    ("scratch" ≠ "") ∧
    List.countP (fun d => decide (d = "scratch"))
      (collectDefects exDefects "这个缺陷") =
      List.countP (fun item =>
        decide (getField item "这个缺陷" ≠ Value.vnone ∧
          pyStrip (getField item "这个缺陷").pyStr = "scratch")) exDefects :=
  ⟨by decide,
   analyze_defect_data_counts.1 exDefects "这个缺陷" "scratch" (by decide)⟩

/-- C7 counterexample: the loader of quality_test.py keeps a row whose
key cell is the spreadsheet error marker `#DIV/0!`, though the claim says
every report variant rejects `#`-prefixed keys. -/
theorem quality_loader_keeps_hash_key :
    keepRowQuality (Value.vstr "#DIV/0!") = true := by decide

/-- C7 amended: the defect-graph and pareto loaders reject a row exactly
when its key cell is null or its stringified key starts with `#`, keeping
everything else including numeric keys; the quality loader rejects only
null key cells. -/
theorem row_filter_per_variant :
    (∀ key : Value,
        keepRowDefect key =
          (decide (key ≠ Value.vnone) && !(pyStartsWith key.pyStr "#"))) ∧
    (∀ key : Value, keepRowPareto key = keepRowDefect key) ∧
    (∀ key : Value, keepRowQuality key = decide (key ≠ Value.vnone)) ∧
    keepRowDefect (Value.vint 123) = true ∧
    keepRowPareto (Value.vint 123) = true ∧
    keepRowQuality (Value.vint 123) = true := by
  refine ⟨?_, ?_, ?_, by decide, by decide, by decide⟩
  · intro key
    cases key with
    | vnone => decide
    | vstr s =>
        simp only [keepRowDefect, is_valid_code, Value.pyStr]
        rcases Bool.eq_false_or_eq_true (pyStartsWith s "#") with h | h <;>
          simp [h]
    | vint n =>
        simp only [keepRowDefect, is_valid_code, Value.pyStr]
        rcases Bool.eq_false_or_eq_true (pyStartsWith (toString n) "#")
          with h | h <;> simp [h]
  · intro key
    cases key <;> rfl
  · intro key
    cases key <;> rfl

lemma findHeaderRowParetoGo_ok (header_keyword : String)
    (rows : List (List Value)) :
    ∀ idx : Nat, ∃ n,
      findHeaderRowParetoGo header_keyword rows idx = Except.ok n := by
  induction rows with
  | nil => intro idx; exact ⟨1, rfl⟩
  | cons row rest ih =>
      intro idx
      by_cases hlen : 2 < row.length
      · obtain ⟨v, hv⟩ : ∃ v, row[2]? = Option.some v :=
          ⟨_, List.getElem?_eq_getElem hlen⟩
        simp only [findHeaderRowParetoGo, if_pos hlen, pyIndex, hv]
        rcases Bool.eq_false_or_eq_true (dgCellHit header_keyword v)
            with h | h
        · rw [if_pos h]
          exact ⟨idx, rfl⟩
        · rw [if_neg (by simp [h])]
          exact ih (idx + 1)
      · simp only [findHeaderRowParetoGo, if_neg hlen]
        exact ih (idx + 1)

lemma findHeaderRowDgGo_ok (header_keyword : String)
    (rows : List (List Value)) (hrows : ∀ row ∈ rows, row ≠ []) :
    ∀ idx : Nat, ∃ n,
      findHeaderRowDgGo header_keyword rows idx = Except.ok n := by
  induction rows with
  | nil => intro idx; exact ⟨1, rfl⟩
  | cons row rest ih =>
      intro idx
      have hne : row ≠ [] := hrows row (List.mem_cons_self _ _)
      match row, hne with
      | cell :: cells, _ =>
        simp only [findHeaderRowDgGo, pyIndex, List.getElem?_cons_zero]
        rcases Bool.eq_false_or_eq_true (dgCellHit header_keyword cell)
            with h | h
        · rw [if_pos h]
          exact ⟨idx, rfl⟩
        · rw [if_neg (by simp [h])]
          exact ih (fun r hr => hrows r (List.mem_cons_of_mem _ hr)) (idx + 1)

/-- C9 counterexample: the defect-graph variant of `find_header_row`
raises `IndexError` on a zero-cell row instead of treating the absent
cell as non-matching, even though a later row matches the keyword. -/
theorem find_header_row_dg_raises_on_short_row :
    find_header_row_dg [[], [Value.vstr "片号"]] "片号" =
      Except.error "IndexError" := rfl

/-- C9 amended: the pareto variant of `find_header_row` never raises on
any row shape (it guards the inspected index with a length check); the
defect-graph variant accesses cell 0 unconditionally and raises on a
zero-cell row, but never raises when every row has at least one cell, as
rows produced by the spreadsheet reader always do. -/
theorem find_header_row_short_rows :
    (∀ (rows : List (List Value)) (header_keyword : String),
        ∃ n, find_header_row_pareto rows header_keyword = Except.ok n) ∧
    (∀ (rows : List (List Value)) (header_keyword : String),
        (∀ row ∈ rows, row ≠ []) →
        ∃ n, find_header_row_dg rows header_keyword = Except.ok n) :=
  ⟨fun rows kw => findHeaderRowParetoGo_ok kw rows 1,
   fun rows kw hrows => findHeaderRowDgGo_ok kw rows hrows 1⟩

/-- Witness for C9 at a concrete row list with non-empty rows. -/
theorem find_header_row_short_rows_witness :
    (∀ row ∈ ([[Value.vstr "x"], [Value.vnone, Value.vint 3]] :
        List (List Value)), row ≠ []) ∧
    (∃ n, find_header_row_dg
        [[Value.vstr "x"], [Value.vnone, Value.vint 3]] "片号" =
      Except.ok n) :=
  ⟨by decide,
   find_header_row_short_rows.2
     [[Value.vstr "x"], [Value.vnone, Value.vint 3]] "片号" (by decide)⟩

lemma findHeaderRowQtGo_no_match (header_keyword : String)
    (rows : List (List Value))
    (h : ∀ row ∈ rows, ∀ cell ∈ row, cell.truthy = true →
      strContains cell.pyStr header_keyword = false) :
    ∀ idx : Nat, findHeaderRowQtGo header_keyword rows idx = 1 := by
  induction rows with
  | nil => intro idx; rfl
  | cons row rest ih =>
      intro idx
      have hrow : List.any row
          (fun cell => cell.truthy && strContains cell.pyStr header_keyword) =
          false := by
        rw [List.any_eq_false]
        intro cell hc
        rcases Bool.eq_false_or_eq_true cell.truthy with ht | ht
        · simp [ht, h row (List.mem_cons_self _ _) cell hc ht]
        · simp [ht]
      simp only [findHeaderRowQtGo, hrow]
      rw [if_neg (by simp)]
      exact ih (fun r hr => h r (List.mem_cons_of_mem _ hr)) (idx + 1)

lemma findHeaderRowDgGo_no_match (header_keyword : String)
    (rows : List (List Value))
    (h : ∀ row ∈ rows, row ≠ [] ∧
      dgCellHit header_keyword (row.headD Value.vnone) = false) :
    ∀ idx : Nat, findHeaderRowDgGo header_keyword rows idx = Except.ok 1 := by
  induction rows with
  | nil => intro idx; rfl
  | cons row rest ih =>
      intro idx
      obtain ⟨hne, hhit⟩ := h row (List.mem_cons_self _ _)
      match row, hne, hhit with
      | cell :: cells, _, hhit =>
        simp only [findHeaderRowDgGo, pyIndex, List.getElem?_cons_zero]
        rw [if_neg (by simp [List.headD] at hhit; simp [hhit])]
        exact ih (fun r hr => h r (List.mem_cons_of_mem _ hr)) (idx + 1)

/-- C8 counterexample: on the non-empty row sequence consisting of one
zero-cell row — whose inspected cell is absent, hence contains no
keyword — the defect-graph variant of `find_header_row` raises
`IndexError` instead of returning 1. -/
theorem find_header_row_dg_no_fallback_on_empty_row :
    find_header_row_dg [[]] "种类" = Except.error "IndexError" ∧
    (Except.error "IndexError" : Except String Nat) ≠ Except.ok 1 :=
  ⟨rfl, fun h => Except.noConfusion h⟩

/-- C8 amended: on every non-empty row sequence in which no inspected
cell stringifies to a value containing the keyword, the quality variant
of `find_header_row` returns 1, and the defect-graph variant returns 1
provided additionally every row has at least one cell (as rows produced
by the spreadsheet reader always do). -/
theorem find_header_row_fallback :
    (∀ (rows : List (List Value)) (header_keyword : String), rows ≠ [] →
        (∀ row ∈ rows, ∀ cell ∈ row, cell.truthy = true →
          strContains cell.pyStr header_keyword = false) →
        find_header_row_qt rows header_keyword = 1) ∧
    (∀ (rows : List (List Value)) (header_keyword : String), rows ≠ [] →
        (∀ row ∈ rows, row ≠ [] ∧
          dgCellHit header_keyword (row.headD Value.vnone) = false) →
        find_header_row_dg rows header_keyword = Except.ok 1) :=
  ⟨fun rows kw _ h => findHeaderRowQtGo_no_match kw rows h 1,
   fun rows kw _ h => findHeaderRowDgGo_no_match kw rows h 1⟩

/-- Witness for C8 at a concrete keyword-free row sequence. -/
theorem find_header_row_fallback_witness :
    (([[Value.vstr "abc"], [Value.vnone, Value.vint 7]] :
        List (List Value)) ≠ []) ∧
    (∀ row ∈ ([[Value.vstr "abc"], [Value.vnone, Value.vint 7]] :
        List (List Value)), ∀ cell ∈ row, cell.truthy = true →
      strContains cell.pyStr "种类" = false) ∧
    find_header_row_qt [[Value.vstr "abc"], [Value.vnone, Value.vint 7]]
      "种类" = 1 ∧
    (∀ row ∈ ([[Value.vstr "abc"], [Value.vnone, Value.vint 7]] :
        List (List Value)), row ≠ [] ∧
      dgCellHit "种类" (row.headD Value.vnone) = false) ∧
    find_header_row_dg [[Value.vstr "abc"], [Value.vnone, Value.vint 7]]
      "种类" = Except.ok 1 :=
  ⟨by decide, by decide,
   find_header_row_fallback.1 _ _ (by decide) (by decide),
   by decide,
   find_header_row_fallback.2 _ _ (by decide) (by decide)⟩
